import Mathlib

/-!
Verification of the ExpenseAI transaction-categorization pipeline.

The definitions below are a shallow embedding of the pipeline implemented in
`src/ai/flows/categorize-transactions.ts` (chunking, the per-chunk try/catch
aggregation, and the response validator inside `categorizeTransactionsFlow`)
and of the reconciliation step in `src/app/page.tsx`
(`handleTransactionsParsed`).  The external generative-model call is the only
effectful boundary; it is modelled by an oracle assigning to each chunk index
either a thrown error or a raw (untrusted) response.
-/

namespace ExpenseAI

/-! ## Strings: JavaScript `String.prototype.trim` -/

/-- Embedding of JavaScript `trim` on the character list of a string:
drop leading whitespace, then drop trailing whitespace. -/
def jsTrimList (l : List Char) : List Char :=
  ((l.dropWhile Char.isWhitespace).reverse.dropWhile Char.isWhitespace).reverse

/-- JavaScript `s.trim()`. -/
def jsTrim (s : String) : String := ⟨jsTrimList s.data⟩

/-! ## Data model -/

/-- A parsed bank-statement transaction, as sent to the categorization flow
(`TransactionInputSchema` in `categorize-transactions.ts`: date, description,
amount; the `id`/`category` fields are stripped before the AI call).  The
numeric amount is opaque to the pipeline, which never computes with it. -/
structure Transaction where
  date : String
  description : String
  amount : Int
  deriving DecidableEq, Repr

/-- One element of the categorization output
(`CategorizedOutputSchema`): a category that may be `null`. -/
structure CategoryResult where
  category : Option String
  deriving DecidableEq, Repr

/-- A transaction as held in UI state after reconciliation: the original
fields plus the attached category string. -/
structure CategorizedTransaction where
  date : String
  description : String
  amount : Int
  category : String
  deriving DecidableEq, Repr

/-- The JavaScript value found at `output[i]?.category` for one element of a
raw model response: a string, JSON `null`, `undefined` (absent element or
absent field), or a value of some other runtime type. -/
inductive RawCategory where
  | str (s : String)
  | nullv
  | undef
  | other
  deriving DecidableEq, Repr

/-- A raw, untrusted model response as seen by `categorizeTransactionsFlow`:
either not an array at all, or an array of elements each reduced to the value
of its `category` access. -/
inductive RawResponse where
  | notArray
  | arr (items : List RawCategory)
  deriving DecidableEq, Repr

/-- Outcome of one classifier invocation for a chunk: the call throws
(network/model error), or it returns a raw response. -/
inductive ChunkOutcome where
  | throws
  | returns (raw : RawResponse)

/-! ## Response validator (`categorizeTransactionsFlow`, lines 154-193) -/

/-- Per-item category validation, from
`(typeof aiCategory === 'string' && aiCategory.trim() !== '') ?
aiCategory.trim() : null`. -/
def validateCategory : RawCategory → Option String
  | .str s => if jsTrim s ≠ "" then some (jsTrim s) else none
  | .nullv => none
  | .undef => none
  | .other => none

/-- The validation/repair performed on the raw model output by
`categorizeTransactionsFlow`:
non-array responses become `expectedLength` null results; wrong-length arrays
are rebuilt index by index via `output[i]?.category`; equal-length arrays are
validated item by item. -/
def validate (raw : RawResponse) (expectedLength : Nat) : List CategoryResult :=
  match raw with
  | .notArray => List.replicate expectedLength ⟨none⟩
  | .arr output =>
    if output.length ≠ expectedLength then
      (List.range expectedLength).map fun i => ⟨validateCategory (output.getD i .undef)⟩
    else
      output.map fun item => ⟨validateCategory item⟩

/-! ## Chunker (`categorizeTransactions`, lines 36-42) -/

/-- `MAX_CHUNK_SIZE` from `categorize-transactions.ts`. -/
def MAX_CHUNK_SIZE : Nat := 100

/-- The chunking loop
`for (let i = 0; i < input.length; i += MAX_CHUNK_SIZE)
  chunks.push(input.slice(i, i + MAX_CHUNK_SIZE))`,
written with an explicit fuel bound (the loop runs at most `input.length`
times); `chunk100` below instantiates the fuel. -/
def chunkFuel : Nat → List α → List (List α)
  | _, [] => []
  | 0, _ :: _ => []
  | fuel + 1, x :: xs =>
    ((x :: xs).take MAX_CHUNK_SIZE) :: chunkFuel fuel ((x :: xs).drop MAX_CHUNK_SIZE)

/-- The chunker: split into contiguous runs of at most `MAX_CHUNK_SIZE`. -/
def chunk100 (l : List α) : List (List α) := chunkFuel l.length l

/-! ## Chunk aggregation (`categorizeTransactions`, lines 44-75) -/

/-- The aggregation loop over chunks: each chunk is sent to the flow inside a
`try`; on a throw the chunk's slots are filled with
`Array(chunk.length).fill({category: null})`, otherwise the flow's validated
output is appended.  The oracle gives each chunk's classifier outcome by
position. -/
def aggregateChunks (oracle : Nat → ChunkOutcome) :
    Nat → List (List Transaction) → List CategoryResult
  | _, [] => []
  | i, c :: cs =>
    (match oracle i with
     | .throws => List.replicate c.length (⟨none⟩ : CategoryResult)
     | .returns raw => validate raw c.length) ++ aggregateChunks oracle (i + 1) cs

/-- The defensive final length check (lines 60-69): pad with nulls while too
short, then truncate if too long. -/
def fixLength (results : List CategoryResult) (n : Nat) : List CategoryResult :=
  if results.length = n then results
  else (results ++ List.replicate (n - results.length) (⟨none⟩ : CategoryResult)).take n

/-- One invocation of `categorizeTransactionsFlow` on a chunk: the prompt call
may throw (propagated), otherwise the raw output is validated against the
chunk's length.  Validation itself never throws. -/
def runFlow (outcome : ChunkOutcome) (chunkLen : Nat) :
    Except Unit (List CategoryResult) :=
  match outcome with
  | .throws => .error ()
  | .returns raw => .ok (validate raw chunkLen)

/-- `categorizeTransactions` (lines 34-76): inputs longer than
`MAX_CHUNK_SIZE` are chunked and aggregated with per-chunk error recovery and
the final length fix; shorter inputs are passed to the flow directly, with no
surrounding `try`, so a thrown classifier error propagates to the caller. -/
def categorizeTransactions (oracle : Nat → ChunkOutcome) (input : List Transaction) :
    Except Unit (List CategoryResult) :=
  if MAX_CHUNK_SIZE < input.length then
    .ok (fixLength (aggregateChunks oracle 0 (chunk100 input)) input.length)
  else
    runFlow (oracle 0) input.length

/-! ## Reconciliation (`page.tsx`, `handleTransactionsParsed`) -/

/-- `DEFAULT_CATEGORY` from `page.tsx`. -/
def DEFAULT_CATEGORY : String := "Other"

/-- JavaScript truthiness of `categorizedResult[index]?.category` restricted
to the values it can take here: a string is truthy iff non-empty; `null` and
`undefined` are falsy. -/
def truthy : Option String → Bool
  | some s => s ≠ ""
  | none => false

/-- `const finalCategory = aiCategory || DEFAULT_CATEGORY` (line 110). -/
def finalCategory (aiCategory : Option String) : String :=
  match aiCategory with
  | some s => if s = "" then DEFAULT_CATEGORY else s
  | none => DEFAULT_CATEGORY

/-- The reconciliation map
`prev.map((tx, index) => ... categorizedResult[index]?.category ...)`
(lines 107-120), with the running index made explicit. -/
def reconcileList (results : List CategoryResult) :
    Nat → List Transaction → List CategorizedTransaction
  | _, [] => []
  | i, tx :: txs =>
    { date := tx.date, description := tx.description, amount := tx.amount,
      category := finalCategory (results.getD i ⟨none⟩).category }
      :: reconcileList results (i + 1) txs

/-- The success/defaulted counters incremented inside the same map
(lines 112-116): first component `successfulCategorizationCount`, second
`failedCategorizationCount`. -/
def countCategorized (results : List CategoryResult) :
    Nat → List Transaction → Nat × Nat
  | _, [] => (0, 0)
  | i, _ :: txs =>
    let rest := countCategorized results (i + 1) txs
    if truthy (results.getD i ⟨none⟩).category then (rest.1 + 1, rest.2)
    else (rest.1, rest.2 + 1)

/-- The full pipeline as run by `handleTransactionsParsed`: categorize, then
reconcile positionally; if the categorization call itself throws, the `catch`
branch (lines 127-138) sets every category to `DEFAULT_CATEGORY` and reports
all transactions as defaulted. -/
def runPipeline (oracle : Nat → ChunkOutcome) (txs : List Transaction) :
    List CategorizedTransaction × Nat × Nat :=
  match categorizeTransactions oracle txs with
  | .ok results => (reconcileList results 0 txs, countCategorized results 0 txs)
  | .error _ =>
    (txs.map fun tx =>
      { date := tx.date, description := tx.description, amount := tx.amount,
        category := DEFAULT_CATEGORY },
     0, txs.length)

/-! ## Concrete data used in instance theorems -/

deriving instance DecidableEq for Except

/-- A sample parsed transaction (from the worked example in the prompt). -/
def sampleTx : Transaction := ⟨"2024-07-01", "Coffee Shop", -5⟩

/-- Distinct two-letter category labels, used to observe ordering. -/
def catStr (i : Nat) : String :=
  ⟨[Char.ofNat (65 + i / 26), Char.ofNat (65 + i % 26)]⟩

/-- A classifier oracle for a 250-transaction run: chunk 0 and chunk 2 return
well-formed responses with distinct labels, chunk 1 throws. -/
def oracleSplit : Nat → ChunkOutcome := fun i =>
  if i = 0 then .returns (.arr ((List.range 100).map fun j => .str (catStr j)))
  else if i = 1 then .throws
  else .returns (.arr ((List.range 50).map fun j => .str (catStr (200 + j))))

/-- 250 input transactions. -/
def txs250 : List Transaction := List.replicate 250 sampleTx

/-- Expected aggregate for `oracleSplit` on `txs250`: chunk 1's slots null,
the others carrying their labels at the original positions. -/
def expected250 : List CategoryResult :=
  (List.range 250).map fun i =>
    if 100 ≤ i ∧ i < 200 then ⟨none⟩ else ⟨some (catStr i)⟩

/-- 20 input transactions for the reconciliation count instance. -/
def txs20 : List Transaction := List.replicate 20 sampleTx

/-- 20 results of which the last 7 are null. -/
def rs20 : List CategoryResult :=
  List.replicate 13 (⟨some "Food"⟩ : CategoryResult) ++ List.replicate 7 ⟨none⟩

set_option maxRecDepth 100000

/-! ## Lemmas: JavaScript trim -/

theorem dropWhile_head_false (p : α → Bool) :
    ∀ l : List α, (∀ x, l.head? = some x → p x = false) → l.dropWhile p = l
  | [], _ => rfl
  | x :: xs, h => by
    have hx : p x = false := h x rfl
    simp [List.dropWhile_cons, hx]

theorem head?_dropWhile_false (p : α → Bool) :
    ∀ (l : List α) (x : α), (l.dropWhile p).head? = some x → p x = false
  | [], x, h => by simp at h
  | y :: ys, x, h => by
    cases hy : p y with
    | true =>
      rw [List.dropWhile_cons, if_pos hy] at h
      exact head?_dropWhile_false p ys x h
    | false =>
      rw [List.dropWhile_cons, if_neg (by simp [hy])] at h
      simp only [List.head?_cons, Option.some.injEq] at h
      rw [← h]; exact hy

theorem getLast?_of_suffix {l₁ l₂ : List α} (h : l₁ <:+ l₂) (hne : l₁ ≠ []) :
    l₁.getLast? = l₂.getLast? := by
  obtain ⟨t, rfl⟩ := h
  rw [List.getLast?_append]
  cases hl : l₁.getLast? with
  | none => exact absurd (List.getLast?_eq_none_iff.mp hl) hne
  | some a => rfl

theorem jsTrimList_head_not_ws (l : List Char) (x : Char)
    (hx : (jsTrimList l).head? = some x) : x.isWhitespace = false := by
  unfold jsTrimList at hx
  rw [List.head?_reverse] at hx
  have hBne :
      ((l.dropWhile Char.isWhitespace).reverse.dropWhile Char.isWhitespace) ≠ [] := by
    intro h0
    rw [h0] at hx
    simp at hx
  rw [getLast?_of_suffix (List.dropWhile_suffix Char.isWhitespace) hBne,
    List.getLast?_reverse] at hx
  exact head?_dropWhile_false _ _ x hx

theorem jsTrimList_getLast_not_ws (l : List Char) (x : Char)
    (hx : (jsTrimList l).getLast? = some x) : x.isWhitespace = false := by
  unfold jsTrimList at hx
  rw [List.getLast?_reverse] at hx
  exact head?_dropWhile_false _ _ x hx

theorem jsTrimList_of_clean (l : List Char)
    (h1 : ∀ x, l.head? = some x → x.isWhitespace = false)
    (h2 : ∀ x, l.getLast? = some x → x.isWhitespace = false) :
    jsTrimList l = l := by
  unfold jsTrimList
  rw [dropWhile_head_false _ l h1]
  rw [dropWhile_head_false _ l.reverse
    (by intro x hx; rw [List.head?_reverse] at hx; exact h2 x hx)]
  exact List.reverse_reverse l

theorem jsTrimList_idem (l : List Char) : jsTrimList (jsTrimList l) = jsTrimList l :=
  jsTrimList_of_clean _ (jsTrimList_head_not_ws l) (jsTrimList_getLast_not_ws l)

theorem jsTrim_idem (s : String) : jsTrim (jsTrim s) = jsTrim s :=
  congrArg String.mk (jsTrimList_idem s.data)

/-! ## Lemmas: validator -/

theorem validate_length (raw : RawResponse) (n : Nat) : (validate raw n).length = n := by
  cases raw with
  | notArray => simp [validate]
  | arr output =>
    by_cases h : output.length = n
    · simp [validate, h]
    · simp [validate, h]

theorem validate_getD (out : List RawCategory) (n i : Nat) (hi : i < n) :
    (validate (RawResponse.arr out) n).getD i ⟨none⟩
      = ⟨validateCategory (out.getD i RawCategory.undef)⟩ := by
  by_cases h : out.length = n
  · have hi2 : i < out.length := by omega
    simp only [validate, h, ne_eq, not_true_eq_false, if_false]
    rw [List.getD_eq_getElem?_getD, List.getElem?_eq_getElem (by simpa using hi2),
      List.getElem_map, List.getD_eq_getElem?_getD, List.getElem?_eq_getElem hi2]
    rfl
  · simp only [validate, ne_eq, h, not_false_iff, if_true]
    rw [List.getD_eq_getElem?_getD, List.getElem?_eq_getElem (by simpa using hi),
      List.getElem_map, List.getElem_range]
    rfl

theorem validateCategory_sound (x : RawCategory) (s : String)
    (h : validateCategory x = some s) : s ≠ "" ∧ jsTrim s = s := by
  cases x with
  | str t =>
    simp only [validateCategory] at h
    by_cases ht : jsTrim t ≠ ""
    · rw [if_pos ht] at h
      cases h
      exact ⟨ht, jsTrim_idem t⟩
    · rw [if_neg ht] at h
      cases h
  | nullv => cases h
  | undef => cases h
  | other => cases h

theorem validate_mem_sound (raw : RawResponse) (n : Nat) (r : CategoryResult)
    (hr : r ∈ validate raw n) (s : String) (hs : r.category = some s) :
    s ≠ "" ∧ jsTrim s = s := by
  cases raw with
  | notArray =>
    have := List.eq_of_mem_replicate hr
    rw [this] at hs
    cases hs
  | arr output =>
    simp only [validate] at hr
    by_cases h : output.length = n
    · rw [if_neg (by simp [h])] at hr
      obtain ⟨x, _, hx⟩ := List.mem_map.mp hr
      rw [← hx] at hs
      exact validateCategory_sound x s hs
    · rw [if_pos (by simp [h])] at hr
      obtain ⟨i, _, hx⟩ := List.mem_map.mp hr
      rw [← hx] at hs
      exact validateCategory_sound _ s hs

/-! ## Lemmas: chunker -/

theorem chunkFuel_flatten : ∀ (fuel : Nat) (l : List α), l.length ≤ fuel →
    (chunkFuel fuel l).flatten = l
  | fuel, [], _ => by cases fuel <;> rfl
  | 0, x :: xs, h => by simp at h
  | fuel + 1, x :: xs, h => by
    have hd : ((x :: xs).drop MAX_CHUNK_SIZE).length ≤ fuel := by
      simp only [List.length_drop, List.length_cons, MAX_CHUNK_SIZE]
      simp only [List.length_cons] at h
      omega
    simp only [chunkFuel, List.flatten_cons]
    rw [chunkFuel_flatten fuel _ hd, List.take_append_drop]

theorem chunk100_flatten (l : List α) : (chunk100 l).flatten = l :=
  chunkFuel_flatten l.length l le_rfl

theorem chunkFuel_mem : ∀ (fuel : Nat) (l : List α) (c : List α),
    c ∈ chunkFuel fuel l → c.length ≤ MAX_CHUNK_SIZE ∧ c ≠ []
  | fuel, [], c, hc => by cases fuel <;> cases hc
  | 0, _ :: _, c, hc => by cases hc
  | fuel + 1, x :: xs, c, hc => by
    simp only [chunkFuel, List.mem_cons] at hc
    rcases hc with rfl | hc
    · refine ⟨List.length_take_le MAX_CHUNK_SIZE (x :: xs), ?_⟩
      intro h0
      rw [List.take_eq_nil_iff] at h0
      rcases h0 with h0 | h0
      · simp [MAX_CHUNK_SIZE] at h0
      · cases h0
    · exact chunkFuel_mem fuel _ c hc

theorem chunkFuel_sizes : ∀ (fuel : Nat) (l : List α) (i : Nat), l.length ≤ fuel →
    i + 1 < (chunkFuel fuel l).length →
    ((chunkFuel fuel l).getD i []).length = MAX_CHUNK_SIZE
  | fuel, [], i, _, hi => by cases fuel <;> simp [chunkFuel] at hi
  | 0, _ :: _, _, h, _ => by simp at h
  | fuel + 1, x :: xs, 0, h, hi => by
    have hrest : chunkFuel fuel ((x :: xs).drop MAX_CHUNK_SIZE) ≠ [] := by
      intro h0
      simp only [chunkFuel, h0, List.length_cons, List.length_nil] at hi
      omega
    have hdrop : (x :: xs).drop MAX_CHUNK_SIZE ≠ [] := by
      intro h0
      exact hrest (by rw [h0]; cases fuel <;> rfl)
    have hlen : MAX_CHUNK_SIZE < (x :: xs).length := by
      by_contra hle
      push_neg at hle
      exact hdrop (List.drop_eq_nil_of_le hle)
    simp only [chunkFuel, List.getD_cons_zero, List.length_take]
    omega
  | fuel + 1, x :: xs, i + 1, h, hi => by
    have hd : ((x :: xs).drop MAX_CHUNK_SIZE).length ≤ fuel := by
      simp only [List.length_drop, List.length_cons, MAX_CHUNK_SIZE]
      simp only [List.length_cons] at h
      omega
    simp only [chunkFuel, List.getD_cons_succ]
    refine chunkFuel_sizes fuel _ i hd ?_
    simp only [chunkFuel, List.length_cons] at hi
    omega

/-! ## Lemmas: aggregation -/

theorem aggregateChunks_length (oracle : Nat → ChunkOutcome) :
    ∀ (k : Nat) (cs : List (List Transaction)),
    (aggregateChunks oracle k cs).length = (cs.map List.length).sum
  | _, [] => rfl
  | k, c :: cs => by
    simp only [aggregateChunks, List.length_append, List.map_cons, List.sum_cons]
    rw [aggregateChunks_length oracle (k + 1) cs]
    cases oracle k with
    | throws => simp
    | returns raw => simp [validate_length]

theorem fixLength_length (rs : List CategoryResult) (n : Nat) :
    (fixLength rs n).length = n := by
  unfold fixLength
  by_cases h : rs.length = n
  · simp [h]
  · simp only [if_neg h, List.length_take, List.length_append, List.length_replicate]
    omega

theorem fixLength_of_eq (rs : List CategoryResult) (n : Nat) (h : rs.length = n) :
    fixLength rs n = rs := by
  simp [fixLength, h]

theorem aggregate_chunk100_length (oracle : Nat → ChunkOutcome) (l : List Transaction) :
    (aggregateChunks oracle 0 (chunk100 l)).length = l.length := by
  rw [aggregateChunks_length, ← List.length_flatten, chunk100_flatten]

theorem categorize_ok_length (oracle : Nat → ChunkOutcome) (input : List Transaction)
    (rs : List CategoryResult) (h : categorizeTransactions oracle input = .ok rs) :
    rs.length = input.length := by
  unfold categorizeTransactions at h
  by_cases hlen : MAX_CHUNK_SIZE < input.length
  · rw [if_pos hlen] at h
    cases h
    exact fixLength_length _ _
  · rw [if_neg hlen] at h
    unfold runFlow at h
    cases ho : oracle 0 with
    | throws => rw [ho] at h; cases h
    | returns raw => rw [ho] at h; cases h; exact validate_length raw _

theorem aggregateChunks_throws_slot (oracle : Nat → ChunkOutcome) :
    ∀ (fuel : Nat) (l : List Transaction) (k i : Nat), l.length ≤ fuel →
    i < l.length → oracle (k + i / MAX_CHUNK_SIZE) = .throws →
    (aggregateChunks oracle k (chunkFuel fuel l)).getD i ⟨some ""⟩ = ⟨none⟩
  | fuel, [], _, i, _, hi, _ => by simp at hi
  | 0, _ :: _, _, _, h, _, _ => by simp at h
  | fuel + 1, x :: xs, k, i, h, hi, ho => by
    simp only [chunkFuel, aggregateChunks]
    by_cases hilt : i < MAX_CHUNK_SIZE
    · have hdiv : i / MAX_CHUNK_SIZE = 0 := Nat.div_eq_of_lt hilt
      rw [hdiv, Nat.add_zero] at ho
      rw [ho]
      have hic : i < (List.replicate ((x :: xs).take MAX_CHUNK_SIZE).length
          (⟨none⟩ : CategoryResult)).length := by
        simp only [List.length_replicate, List.length_take]
        exact lt_min hilt hi
      rw [List.getD_append _ _ _ i (by simpa using hic)]
      rw [List.getD_eq_getElem?_getD, List.getElem?_eq_getElem hic,
        List.getElem_replicate]
      rfl
    · push_neg at hilt
      have hlen : MAX_CHUNK_SIZE < (x :: xs).length := lt_of_le_of_lt hilt hi
      have htake : ((x :: xs).take MAX_CHUNK_SIZE).length = MAX_CHUNK_SIZE := by
        rw [List.length_take]
        omega
      have hd : ((x :: xs).drop MAX_CHUNK_SIZE).length ≤ fuel := by
        simp only [List.length_drop, List.length_cons, MAX_CHUNK_SIZE]
        simp only [List.length_cons] at h
        omega
      have hi2 : i - MAX_CHUNK_SIZE < ((x :: xs).drop MAX_CHUNK_SIZE).length := by
        simp only [List.length_drop]
        omega
      have ho2 : oracle ((k + 1) + (i - MAX_CHUNK_SIZE) / MAX_CHUNK_SIZE) = .throws := by
        have hdiv : i / MAX_CHUNK_SIZE = (i - MAX_CHUNK_SIZE) / MAX_CHUNK_SIZE + 1 :=
          Nat.div_eq_sub_div (by simp [MAX_CHUNK_SIZE]) hilt
        rw [← ho, hdiv]
        congr 1
        omega
      have hslot := aggregateChunks_throws_slot oracle fuel
        ((x :: xs).drop MAX_CHUNK_SIZE) (k + 1) (i - MAX_CHUNK_SIZE) hd hi2 ho2
      cases hok : oracle k with
      | throws =>
        rw [List.getD_append_right _ _ _ i (by simp [htake, hilt])]
        simpa [htake] using hslot
      | returns raw =>
        rw [List.getD_append_right _ _ _ i (by simp [validate_length, htake, hilt])]
        simpa [validate_length, htake] using hslot

/-! ## Lemmas: reconciliation -/

theorem reconcileList_length (results : List CategoryResult) :
    ∀ (k : Nat) (txs : List Transaction),
    (reconcileList results k txs).length = txs.length
  | _, [] => rfl
  | k, _ :: txs => by
    simp [reconcileList, reconcileList_length results (k + 1) txs]

theorem reconcileList_fields (results : List CategoryResult) :
    ∀ (k : Nat) (txs : List Transaction),
    (reconcileList results k txs).map (fun a => (a.date, a.description, a.amount))
      = txs.map (fun t => (t.date, t.description, t.amount))
  | _, [] => rfl
  | k, tx :: txs => by
    simp [reconcileList, reconcileList_fields results (k + 1) txs]

theorem reconcileList_category (results : List CategoryResult)
    (d : CategorizedTransaction) :
    ∀ (k : Nat) (txs : List Transaction) (i : Nat), i < txs.length →
    ((reconcileList results k txs).getD i d).category
      = finalCategory (results.getD (k + i) ⟨none⟩).category
  | _, [], i, hi => by simp at hi
  | k, tx :: txs, 0, _ => by simp [reconcileList]
  | k, tx :: txs, i + 1, hi => by
    simp only [reconcileList, List.getD_cons_succ]
    rw [reconcileList_category results d (k + 1) txs i (by simpa using hi)]
    have hk : k + 1 + i = k + (i + 1) := by omega
    rw [hk]

theorem countCategorized_spec (results : List CategoryResult) :
    ∀ (k : Nat) (txs : List Transaction),
    (countCategorized results k txs).1
        = (List.range txs.length).countP
            (fun i => truthy (results.getD (k + i) ⟨none⟩).category)
      ∧ (countCategorized results k txs).1 + (countCategorized results k txs).2
          = txs.length
  | _, [] => by simp [countCategorized]
  | k, _ :: txs => by
    obtain ⟨ih1, ih2⟩ := countCategorized_spec results (k + 1) txs
    have hcnt : (List.range (txs.length + 1)).countP
          (fun i => truthy (results.getD (k + i) ⟨none⟩).category)
        = (List.range txs.length).countP
            (fun i => truthy (results.getD (k + 1 + i) ⟨none⟩).category)
          + (if truthy (results.getD k ⟨none⟩).category = true then 1 else 0) := by
      rw [List.range_succ_eq_map, List.countP_cons, List.countP_map]
      congr 1
      refine List.countP_congr fun i _ => ?_
      have hki : k + Nat.succ i = k + 1 + i := by omega
      simp [Function.comp, hki]
    simp only [countCategorized, List.length_cons]
    rw [hcnt, ← ih1]
    by_cases hb : truthy (results.getD k ⟨none⟩).category = true
    · rw [if_pos hb, if_pos hb]
      exact ⟨rfl, by simp only [Prod.fst, Prod.snd]; omega⟩
    · rw [if_neg hb, if_neg hb]
      exact ⟨by simp, by simp only [Prod.fst, Prod.snd]; omega⟩

theorem getD_take_of_lt (l : List CategoryResult) (m i : Nat) (hi : i < m)
    (d : CategoryResult) : (l.take m).getD i d = l.getD i d := by
  rw [List.getD_eq_getElem?_getD, List.getD_eq_getElem?_getD, List.getElem?_take,
    if_pos hi]

theorem reconcileList_take (results : List CategoryResult) :
    ∀ (k : Nat) (txs : List Transaction) (m : Nat), k + txs.length ≤ m →
    reconcileList (results.take m) k txs = reconcileList results k txs
  | _, [], _, _ => rfl
  | k, tx :: txs, m, h => by
    have hk : k < m := by
      simp only [List.length_cons] at h
      omega
    have hrec : k + 1 + txs.length ≤ m := by
      simp only [List.length_cons] at h
      omega
    simp only [reconcileList]
    rw [getD_take_of_lt results m k hk]
    rw [reconcileList_take results (k + 1) txs m hrec]

theorem countCategorized_take (results : List CategoryResult) :
    ∀ (k : Nat) (txs : List Transaction) (m : Nat), k + txs.length ≤ m →
    countCategorized (results.take m) k txs = countCategorized results k txs
  | _, [], _, _ => rfl
  | k, tx :: txs, m, h => by
    have hk : k < m := by
      simp only [List.length_cons] at h
      omega
    have hrec : k + 1 + txs.length ≤ m := by
      simp only [List.length_cons] at h
      omega
    simp only [countCategorized]
    rw [getD_take_of_lt results m k hk]
    rw [countCategorized_take results (k + 1) txs m hrec]

/-! ## Claim theorems -/

/-- C1: for every input transaction list (including the empty one) and every
combination of per-chunk classifier outcomes, the pipeline —
`categorizeTransactions` followed by the reconciliation of
`handleTransactionsParsed` (including its catch-all fallback) — produces
exactly one result per input transaction, and the result at index i carries
input i's date, description and amount. -/
theorem pipeline_length_and_order (oracle : Nat → ChunkOutcome)
    (txs : List Transaction) :
    (∀ rs, categorizeTransactions oracle txs = .ok rs → rs.length = txs.length) ∧
    (runPipeline oracle txs).1.length = txs.length ∧
    (runPipeline oracle txs).1.map (fun a => (a.date, a.description, a.amount))
      = txs.map (fun t => (t.date, t.description, t.amount)) := by
  refine ⟨fun rs h => categorize_ok_length oracle txs rs h, ?_, ?_⟩
  · unfold runPipeline
    cases categorizeTransactions oracle txs with
    | ok results => simp [reconcileList_length]
    | error e => simp
  · unfold runPipeline
    cases categorizeTransactions oracle txs with
    | ok results => exact reconcileList_fields results 0 txs
    | error e => simp

/-- Witness for C1 at a one-transaction input with a well-formed response. -/
theorem pipeline_length_and_order_witness :
    categorizeTransactions
        (fun _ => ChunkOutcome.returns (RawResponse.arr [RawCategory.str "Food"]))
        [sampleTx] = .ok [⟨some "Food"⟩] ∧
    ([(⟨some "Food"⟩ : CategoryResult)] : List CategoryResult).length
        = [sampleTx].length :=
  ⟨by decide,
   (pipeline_length_and_order
      (fun _ => ChunkOutcome.returns (RawResponse.arr [RawCategory.str "Food"]))
      [sampleTx]).1 [⟨some "Food"⟩] (by decide)⟩

/-- C2: the validator is a total function (it never throws), returns exactly
`expectedLength` results for every raw response, and a non-array raw
response yields `expectedLength` copies of `{category := null}`. -/
theorem validate_never_throws (raw : RawResponse) (n : Nat) :
    (validate raw n).length = n ∧
    validate RawResponse.notArray n = List.replicate n ⟨none⟩ :=
  ⟨validate_length raw n, rfl⟩

/-- C4: on an array of the wrong length the validator repairs instead of
rejecting: it returns exactly n entries; wherever the raw array has an
element, that element's validated category is carried over; wherever it has
none, the slot is null (truncating extras, padding the missing). -/
theorem validate_repairs_length_mismatch (out : List RawCategory) (n : Nat)
    (_hne : out.length ≠ n) :
    (validate (RawResponse.arr out) n).length = n ∧
    ∀ i, i < n →
      (∀ item, out[i]? = some item →
        (validate (RawResponse.arr out) n).getD i ⟨none⟩
          = ⟨validateCategory item⟩) ∧
      (out[i]? = none →
        (validate (RawResponse.arr out) n).getD i ⟨none⟩ = ⟨none⟩) := by
  refine ⟨validate_length _ n, fun i hi => ⟨fun item hitem => ?_, fun hnone => ?_⟩⟩
  · rw [validate_getD out n i hi, List.getD_eq_getElem?_getD, hitem]
    rfl
  · rw [validate_getD out n i hi, List.getD_eq_getElem?_getD, hnone]
    rfl

/-- Witness for C4: a 2-element response against expected length 3. -/
theorem validate_repairs_length_mismatch_witness :
    ([RawCategory.str " Food ", RawCategory.nullv] : List RawCategory).length ≠ 3 ∧
    (validate (RawResponse.arr [RawCategory.str " Food ", RawCategory.nullv]) 3).length
      = 3 ∧
    (validate (RawResponse.arr [RawCategory.str " Food ", RawCategory.nullv]) 3).getD 2
      ⟨none⟩ = ⟨none⟩ :=
  ⟨by decide,
   (validate_repairs_length_mismatch [RawCategory.str " Food ", RawCategory.nullv] 3
      (by decide)).1,
   ((validate_repairs_length_mismatch [RawCategory.str " Food ", RawCategory.nullv] 3
      (by decide)).2 2 (by decide)).2 (by decide)⟩

/-- C5: each element of the length-corrected raw response is mapped through
the trim rule — a string with non-empty trimmed form is kept trimmed,
everything else becomes null — and consequently no validator output entry is
an empty or whitespace-padded string. -/
theorem validate_trim_rule :
    (∀ (out : List RawCategory) (n i : Nat), i < n →
      (validate (RawResponse.arr out) n).getD i ⟨none⟩
        = ⟨validateCategory (out.getD i RawCategory.undef)⟩) ∧
    (∀ x : RawCategory,
      validateCategory x = none ∨
      ∃ s, x = RawCategory.str s ∧ jsTrim s ≠ ""
        ∧ validateCategory x = some (jsTrim s)) ∧
    (∀ (raw : RawResponse) (n : Nat) (r : CategoryResult), r ∈ validate raw n →
      ∀ s, r.category = some s → s ≠ "" ∧ jsTrim s = s) := by
  refine ⟨validate_getD, ?_, validate_mem_sound⟩
  intro x
  cases x with
  | str s =>
    by_cases hs : jsTrim s ≠ ""
    · exact Or.inr ⟨s, rfl, hs, by simp [validateCategory, hs]⟩
    · push_neg at hs
      left
      simp [validateCategory, hs]
  | nullv => exact Or.inl rfl
  | undef => exact Or.inl rfl
  | other => exact Or.inl rfl

/-- Witness for C5 at a padded category string. -/
theorem validate_trim_rule_witness :
    (0 : Nat) < 1 ∧
    (validate (RawResponse.arr [RawCategory.str "  Food  "]) 1).getD 0 ⟨none⟩
      = ⟨validateCategory (RawCategory.str "  Food  ")⟩ ∧
    ((⟨some "Food"⟩ : CategoryResult)
      ∈ validate (RawResponse.arr [RawCategory.str "  Food  "]) 1) ∧
    "Food" ≠ "" ∧ jsTrim "Food" = "Food" :=
  ⟨by decide,
   validate_trim_rule.1 [RawCategory.str "  Food  "] 1 0 (by decide),
   by decide,
   validate_trim_rule.2.2 (RawResponse.arr [RawCategory.str "  Food  "]) 1
      ⟨some "Food"⟩ (by decide) "Food" rfl⟩

/-- C3 is false as stated: for an input of at most `MAX_CHUNK_SIZE`
transactions there is no chunk-level try/catch — here a single-transaction
input whose classifier call throws makes `categorizeTransactions` itself
error instead of returning normally. -/
theorem categorize_single_chunk_throw_propagates :
    categorizeTransactions (fun _ => ChunkOutcome.throws) [sampleTx]
      = .error () := by decide

/-- C3 (amended): on the chunked path — inputs longer than `MAX_CHUNK_SIZE`
— a classifier throw for any chunk is recovered inside
`categorizeTransactions`: it still returns normally with one result per
input, and every slot belonging to a throwing chunk is `{category := null}`;
for inputs of at most `MAX_CHUNK_SIZE` transactions the throw instead
propagates to the caller (the total-failure path). -/
theorem categorize_chunked_recovers (oracle : Nat → ChunkOutcome)
    (input : List Transaction) (h : MAX_CHUNK_SIZE < input.length) :
    categorizeTransactions oracle input
        = .ok (aggregateChunks oracle 0 (chunk100 input)) ∧
    (aggregateChunks oracle 0 (chunk100 input)).length = input.length ∧
    (∀ i, i < input.length → oracle (i / MAX_CHUNK_SIZE) = .throws →
      (aggregateChunks oracle 0 (chunk100 input)).getD i ⟨some ""⟩ = ⟨none⟩) := by
  refine ⟨?_, aggregate_chunk100_length oracle input, fun i hi ho => ?_⟩
  · unfold categorizeTransactions
    rw [if_pos h, fixLength_of_eq _ _ (aggregate_chunk100_length oracle input)]
  · have h0 : oracle (0 + i / MAX_CHUNK_SIZE) = .throws := by
      rw [Nat.zero_add]
      exact ho
    exact aggregateChunks_throws_slot oracle input.length input 0 i le_rfl hi h0

/-- Witness for the amended C3: 101 transactions, every chunk throwing; slot
100 (the second chunk) is null and the pipeline still returned. -/
theorem categorize_chunked_recovers_witness :
    MAX_CHUNK_SIZE < (List.replicate 101 sampleTx).length ∧
    (aggregateChunks (fun _ => ChunkOutcome.throws) 0
        (chunk100 (List.replicate 101 sampleTx))).getD 100 ⟨some ""⟩ = ⟨none⟩ :=
  ⟨by decide,
   (categorize_chunked_recovers (fun _ => ChunkOutcome.throws)
      (List.replicate 101 sampleTx) (by decide)).2.2 100 (by decide) rfl⟩

/-- C6: 250 transactions are chunked as [100, 100, 50]; with the second
chunk's call throwing while the first and third return labelled responses,
aggregation yields exactly 250 results in which slots 100-199 are null and
the other slots carry the validated labels at their original positions (the
shape of `expected250`). -/
theorem chunk_failure_isolation :
    (chunk100 txs250).map List.length = [100, 100, 50] ∧
    categorizeTransactions oracleSplit txs250 = .ok expected250 ∧
    expected250.length = 250 := by
  refine ⟨by decide, by decide, by decide⟩

/-- C7: the chunker splits the input into contiguous order-preserving runs
(their concatenation is the input) of at most `MAX_CHUNK_SIZE`, every
non-final chunk has exactly `MAX_CHUNK_SIZE` elements and no chunk is empty,
the empty input yields zero chunks, and 150 inputs yield sizes [100, 50]. -/
theorem chunker_spec :
    (∀ l : List Transaction, (chunk100 l).flatten = l) ∧
    (∀ l : List Transaction, ∀ c ∈ chunk100 l,
      c.length ≤ MAX_CHUNK_SIZE ∧ c ≠ []) ∧
    (∀ (l : List Transaction) (i : Nat), i + 1 < (chunk100 l).length →
      ((chunk100 l).getD i []).length = MAX_CHUNK_SIZE) ∧
    chunk100 ([] : List Transaction) = [] ∧
    (chunk100 (List.replicate 150 sampleTx)).map List.length = [100, 50] := by
  refine ⟨chunk100_flatten, ?_, ?_, rfl, by decide⟩
  · exact fun l c hc => chunkFuel_mem l.length l c hc
  · exact fun l i hi => chunkFuel_sizes l.length l i le_rfl hi

/-- Witness for C7 at the 150-transaction input. -/
theorem chunker_spec_witness :
    (0 : Nat) + 1 < (chunk100 (List.replicate 150 sampleTx)).length ∧
    ((chunk100 (List.replicate 150 sampleTx)).getD 0 []).length = MAX_CHUNK_SIZE ∧
    List.replicate 100 sampleTx ∈ chunk100 (List.replicate 150 sampleTx) ∧
    (List.replicate 100 sampleTx).length ≤ MAX_CHUNK_SIZE :=
  ⟨by decide,
   chunker_spec.2.2.1 (List.replicate 150 sampleTx) 0 (by decide),
   by decide,
   (chunker_spec.2.1 (List.replicate 150 sampleTx) (List.replicate 100 sampleTx)
      (by decide)).1⟩

/-- C8 is false as stated: reconciliation uses JavaScript truthiness
(`aiCategory || DEFAULT_CATEGORY`), so a non-null but empty-string category
is NOT attached and counted as succeeded — it is defaulted to
`DEFAULT_CATEGORY` and counted as defaulted. -/
theorem reconcile_empty_string_not_succeeded :
    (([(⟨some ""⟩ : CategoryResult)] : List CategoryResult).getD 0 ⟨none⟩).category
      ≠ none ∧
    countCategorized [⟨some ""⟩] 0 [sampleTx] = (0, 1) ∧
    ((reconcileList [⟨some ""⟩] 0 [sampleTx]).getD 0 ⟨"", "", 0, ""⟩).category
      = DEFAULT_CATEGORY := by decide

/-- C8 (amended): for equal-length inputs, reconciliation pairs positionally;
a slot whose result category is a non-empty string is attached verbatim and
counted as succeeded, while a null — or, by truthiness, empty-string —
category is replaced by `DEFAULT_CATEGORY` and counted as defaulted; the
succeeded count is exactly the number of non-empty-string slots and the two
counters partition the transaction count (so 7 nulls among 20 give
succeeded = 13, defaulted = 7). -/
theorem reconcile_positional_counts (txs : List Transaction)
    (results : List CategoryResult) (_hlen : results.length = txs.length) :
    (reconcileList results 0 txs).length = txs.length ∧
    (∀ i, i < txs.length →
      (∀ c, (results.getD i ⟨none⟩).category = some c → c ≠ "" →
        ((reconcileList results 0 txs).getD i ⟨"", "", 0, ""⟩).category = c) ∧
      ((results.getD i ⟨none⟩).category = none ∨
          (results.getD i ⟨none⟩).category = some "" →
        ((reconcileList results 0 txs).getD i ⟨"", "", 0, ""⟩).category
          = DEFAULT_CATEGORY)) ∧
    (countCategorized results 0 txs).1
      = (List.range txs.length).countP
          (fun i => truthy (results.getD i ⟨none⟩).category) ∧
    (countCategorized results 0 txs).1 + (countCategorized results 0 txs).2
      = txs.length := by
  refine ⟨reconcileList_length results 0 txs,
    fun i hi => ⟨fun c hc hcne => ?_, fun hnull => ?_⟩, ?_, ?_⟩
  · rw [reconcileList_category results _ 0 txs i hi, Nat.zero_add, hc]
    simp [finalCategory, hcne]
  · rw [reconcileList_category results _ 0 txs i hi, Nat.zero_add]
    rcases hnull with hnull | hnull <;> rw [hnull] <;> simp [finalCategory]
  · have h := (countCategorized_spec results 0 txs).1
    simpa [Nat.zero_add] using h
  · exact (countCategorized_spec results 0 txs).2

/-- Witness for the amended C8: 20 transactions, 7 null results — counters
(13, 7), last slot defaulted. -/
theorem reconcile_positional_counts_witness :
    rs20.length = txs20.length ∧
    countCategorized rs20 0 txs20 = (13, 7) ∧
    ((reconcileList rs20 0 txs20).getD 19 ⟨"", "", 0, ""⟩).category
      = DEFAULT_CATEGORY ∧
    (countCategorized rs20 0 txs20).1
      = (List.range txs20.length).countP
          (fun i => truthy (rs20.getD i ⟨none⟩).category) :=
  ⟨by decide, by decide,
   ((reconcile_positional_counts txs20 rs20 (by decide)).2.1 19 (by decide)).2
      (Or.inl (by decide)),
   (reconcile_positional_counts txs20 rs20 (by decide)).2.2.1⟩

/-- C9 is false as stated: a category that is a non-empty but all-whitespace
string is a well-formed non-empty string, yet the validator returns null for
it rather than the (empty) trimmed string. -/
theorem validate_whitespace_not_identity :
    validate (RawResponse.arr [RawCategory.str "   "]) 1 = [⟨none⟩] ∧
    jsTrim "   " = "" ∧
    validate (RawResponse.arr [RawCategory.str "   "]) 1
      ≠ [(⟨some (jsTrim "   ")⟩ : CategoryResult)] := by decide

/-- C9 (amended): the validator is the identity modulo trimming on
well-formed responses whose categories all have a non-empty *trimmed* form:
an array of exactly the expected length of such strings maps to the same
array with every category trimmed. -/
theorem validate_id_on_wellformed (cats : List String)
    (h : ∀ s ∈ cats, jsTrim s ≠ "") :
    validate (RawResponse.arr (cats.map RawCategory.str)) cats.length
      = cats.map fun s => ⟨some (jsTrim s)⟩ := by
  simp only [validate]
  rw [if_neg (by simp)]
  rw [List.map_map]
  refine List.map_congr_left fun s hs => ?_
  simp [Function.comp, validateCategory, h s hs]

/-- Witness for the amended C9 at a two-category response. -/
theorem validate_id_on_wellformed_witness :
    (∀ s ∈ (["Food", " Income "] : List String), jsTrim s ≠ "") ∧
    validate
        (RawResponse.arr ((["Food", " Income "] : List String).map RawCategory.str))
        (["Food", " Income "] : List String).length
      = (["Food", " Income "] : List String).map
          (fun s => ⟨some (jsTrim s)⟩) :=
  ⟨by decide, validate_id_on_wellformed ["Food", " Income "] (by decide)⟩

/-- C10: reconciliation is total with no length precondition: it always
produces exactly one annotated transaction per input; an index at or past the
end of the results list behaves as a null result and gets
`DEFAULT_CATEGORY`; and result entries beyond the transactions' length are
ignored (truncating them changes nothing). -/
theorem reconcile_total_any_lengths (txs : List Transaction)
    (results : List CategoryResult) :
    (reconcileList results 0 txs).length = txs.length ∧
    (∀ i, results.length ≤ i → i < txs.length →
      ((reconcileList results 0 txs).getD i ⟨"", "", 0, ""⟩).category
        = DEFAULT_CATEGORY) ∧
    reconcileList (results.take txs.length) 0 txs = reconcileList results 0 txs ∧
    countCategorized (results.take txs.length) 0 txs
      = countCategorized results 0 txs := by
  refine ⟨reconcileList_length results 0 txs, fun i hle hi => ?_,
    reconcileList_take results 0 txs txs.length (by omega),
    countCategorized_take results 0 txs txs.length (by omega)⟩
  rw [reconcileList_category results _ 0 txs i hi, Nat.zero_add,
    List.getD_eq_getElem?_getD, List.getElem?_eq_none hle]
  rfl

/-- Witness for C10: 3 transactions but only 1 result; slot 2 is defaulted. -/
theorem reconcile_total_any_lengths_witness :
    ([(⟨some "Food"⟩ : CategoryResult)] : List CategoryResult).length ≤ 2 ∧
    (2 : Nat) < (List.replicate 3 sampleTx).length ∧
    ((reconcileList [⟨some "Food"⟩] 0 (List.replicate 3 sampleTx)).getD 2
        ⟨"", "", 0, ""⟩).category = DEFAULT_CATEGORY :=
  ⟨by decide, by decide,
   (reconcile_total_any_lengths (List.replicate 3 sampleTx) [⟨some "Food"⟩]).2.1 2
      (by decide) (by decide)⟩

end ExpenseAI
